import Mathlib

/-!
# arkade: the `get` command (`cmd/get.go`)

A shallow embedding of `MakeGet` and of the `RunE` closure it installs.
Calls that leave `cmd/get.go` (the `get` package, `env.GetClientArch`,
`os.LookupEnv`, `signal.Notify`, `fmt.Printf`) are recorded, in program
order, in a trace of events; what they answer is read from a `World`.
-/

namespace Arkade

/-! ## Data of package `get` used by the command -/

/-- Modelled from the spec: the `Tool` record of package `get` (its declaration
is not part of `cmd/get.go`).  The command itself reads only `Name`. -/
structure Tool where
  Name : String
  Owner : String
  Repo : String
  URLTemplate : String
  BinaryTemplate : String
deriving DecidableEq, Repr

/-- The names exported by package `get` that `cmd/get.go` refers to and whose
values are declared elsewhere: they are taken as parameters. `Less` is the
comparison of two tool names made by the `sort.Interface` of `get.Tools`. -/
structure GetPkg where
  MakeTools : List Tool
  Less : String → String → Bool
  DownloadTempDir : Int
  DownloadArkadeDir : Int
  TableStyle : String
  MarkdownStyle : String

/-! ## Go errors -/

/-- A Go `error` value (never `nil`): a leaf error carrying its message (what
`fmt.Errorf` without `%w` and `errors.New` build), or one of the two layers of
`github.com/pkg/errors`: `withMessage{cause, msg}` and `withStack{error}`
(the recorded program counters of the stack are left out). -/
inductive GoError where
  | errorf (msg : String)
  | withMessage (cause : GoError) (msg : String)
  | withStack (error : GoError)
deriving DecidableEq, Repr

/-- The method `Error()`: `withMessage` prints `msg: cause`, `withStack`
prints what the error it embeds prints. -/
def GoError.Error : GoError → String
  | .errorf msg => msg
  | .withMessage cause msg => msg ++ ": " ++ GoError.Error cause
  | .withStack error => GoError.Error error

/-- The method `Cause()` of the two layers of `github.com/pkg/errors`;
`none` for an error that does not implement `causer`. -/
def GoError.causer : GoError → Option GoError
  | .errorf _ => none
  | .withMessage cause _ => some cause
  | .withStack error => some error

/-- The function `errors.Cause` of `github.com/pkg/errors`: it follows
`Cause()` for as long as the error implements `causer` and returns the error
at which that stops. -/
def Cause : GoError → GoError
  | .errorf msg => .errorf msg
  | .withMessage cause _ => Cause cause
  | .withStack error => Cause error

/-- The function `errors.Wrap` of `github.com/pkg/errors`: `nil` for a `nil`
error, otherwise the error under a message layer under a stack layer. -/
def Wrap : Option GoError → String → Option GoError
  | none, _ => none
  | some err, message => some (.withStack (.withMessage err message))

/-! ## Flags -/

/-- One registered flag of a `pflag.FlagSet`: its current value and whether
the command line set it. -/
structure Flag (α : Type) where
  Value : α
  Changed : Bool
deriving DecidableEq, Repr

/-- The flag set of the `get` command: the four flags of lines 47 to 50. -/
structure FlagSet where
  progress : Flag Bool
  output : Flag String
  stash : Flag Bool
  version : Flag String
deriving DecidableEq, Repr

/-- What the user wrote on the command line for each flag (`none`: the flag
was not given). -/
structure GivenFlags where
  progress : Option Bool
  output : Option String
  stash : Option Bool
  version : Option String
deriving DecidableEq, Repr

/-- Setting a flag from the command line: a given flag takes the given value
and is marked changed, an absent one keeps its registered default. -/
def Flag.parse {α : Type} (f : Flag α) : Option α → Flag α
  | none => f
  | some v => { Value := v, Changed := true }

/-- Parsing the command line into the flag set. -/
def FlagSet.parse (fs : FlagSet) (g : GivenFlags) : FlagSet :=
  { progress := fs.progress.parse g.progress
    output := fs.output.parse g.output
    stash := fs.stash.parse g.stash
    version := fs.version.parse g.version }

/-! ## The world outside the command -/

/-- The arguments of one call of `get.Download`. -/
structure DownloadCall where
  tool : Tool
  arch : String
  operatingSystem : String
  version : String
  dlMode : Int
  progress : Bool
deriving DecidableEq, Repr

/-- The three results of `get.Download`. -/
structure DownloadResult where
  outFilePath : String
  finalName : String
  err : Option GoError
deriving DecidableEq, Repr

/-- What the environment answers during one run: `os.LookupEnv` of
`ARKADE_PROGRESS` (`none`: unset), `env.GetClientArch()`, and the result of
`get.Download` for each possible call. -/
structure World where
  ARKADE_PROGRESS : Option String
  GetClientArch : String × String
  Download : DownloadCall → DownloadResult

/-- The calls `RunE` makes to the outside, in program order. -/
inductive Event where
  | CreateToolsTable (tools : List Tool) (format : String)
  | Printf (text : String)
  | GetClientArch
  | SignalNotify
  | Download (call : DownloadCall)
deriving DecidableEq, Repr

/-- The result of one run of `RunE`: the calls made and the error returned
(`none` is Go `nil`). -/
structure Outcome where
  trace : List Event
  err : Option GoError
deriving DecidableEq, Repr

/-- The calls of `get.Download` in a trace. -/
def downloads : List Event → List DownloadCall
  | [] => []
  | .Download call :: rest => call :: downloads rest
  | _ :: rest => downloads rest

/-! ## Library routines -/

/-- Go `strconv.ParseBool`: the accepted spellings, `none` for a syntax
error. -/
def ParseBool (str : String) : Option Bool :=
  if str = "1" ∨ str = "t" ∨ str = "T" ∨ str = "true" ∨ str = "TRUE" ∨ str = "True" then
    some true
  else if str = "0" ∨ str = "f" ∨ str = "F" ∨ str = "false" ∨ str = "FALSE" ∨ str = "False" then
    some false
  else
    none

/-- The inner loop of the insertion sort of Go package `sort`, on the already
sorted prefix held in reverse (last element first): the new element moves
left while `Less` puts it before its left neighbour. -/
def bubble (less : String → String → Bool) (x : Tool) : List Tool → List Tool
  | [] => [x]
  | y :: ys => if less x.Name y.Name then y :: bubble less x ys else x :: y :: ys

/-- Go `sort.Sort` on a `get.Tools` slice, whose `Less(i, j)` compares the
names of the two tools. The library fixes the result only up to the order of
elements that `Less` does not separate; the model is the insertion sort of
package `sort`, taking the elements from left to right. What the command
relies on, a permutation in ascending order, is proved of it below
(`sortSort_perm`, `sortSort_sorted`). -/
def sortSort (less : String → String → Bool) (tools : List Tool) : List Tool :=
  (tools.foldl (fun sortedRev t => bubble less t sortedRev) []).reverse

/-! ## `MakeGet` -/

/-- The part of the `cobra.Command` built by `MakeGet` that the program
reads back: `ValidArgs`, the flag set, and the `tools` slice captured by the
`RunE` closure. -/
structure Command where
  ValidArgs : List String
  flags : FlagSet
  tools : List Tool
deriving DecidableEq, Repr

/-- Lines 24 to 27: `make([]string, len(tools))` followed by one `append` per
tool. -/
def validToolOptions (tools : List Tool) : List String :=
  tools.foldl (fun acc t => acc ++ [t.Name]) (List.replicate tools.length "")

/-- Lines 47 to 50: the registered flags with their defaults. -/
def registeredFlags : FlagSet :=
  { progress := { Value := true, Changed := false }
    output := { Value := "", Changed := false }
    stash := { Value := true, Changed := false }
    version := { Value := "", Changed := false } }

/-- `MakeGet`: the catalog is built and sorted once, then captured. -/
def MakeGet (pkg : GetPkg) : Command :=
  let tools := sortSort pkg.Less pkg.MakeTools
  { ValidArgs := validToolOptions tools
    flags := registeredFlags
    tools := tools }

/-! ## `RunE` -/

/-- Lines 71 to 76: the search loop, leaving at the first tool whose name is
the argument. -/
def lookupLoop (name : String) : List Tool → Option Tool
  | [] => none
  | t :: rest => if t.Name = name then some t else lookupLoop name rest

/-- Lines 120 to 140: the text printed after a download without error. -/
def installHint (pkg : GetPkg) (dlMode : Int) (outFilePath finalName : String) : String :=
  if dlMode = pkg.DownloadTempDir then
    "Run the following to copy to install the tool:\n\nchmod +x " ++ outFilePath ++
      "\nsudo install -m 755 " ++ outFilePath ++ " /usr/local/bin/" ++ finalName ++ "\n"
  else
    "# Add (" ++ finalName ++ ") to your PATH variable\nexport PATH=$PATH:$HOME/.arkade/bin/\n\n" ++
      "# Test the binary:\n" ++ outFilePath ++ "\n\n# Or install with:\nsudo mv " ++ outFilePath ++
      " /usr/local/bin/\n\n"

/-- Lines 82 to 141: the run once a tool has been found. -/
def runDownload (pkg : GetPkg) (flags : FlagSet) (w : World) (tool : Tool) : Outcome :=
  let started : List Event := [.Printf ("Downloading: " ++ tool.Name ++ "\n"), .GetClientArch]
  let arch := w.GetClientArch.1
  let operatingSystem := w.GetClientArch.2
  let version := if flags.version.Changed then flags.version.Value else ""
  let stash := flags.stash.Value
  let progress? : Option Bool :=
    match w.ARKADE_PROGRESS with
    | none => some flags.progress.Value
    | some p => ParseBool p
  match progress? with
  | none => { trace := started, err := some (.errorf "ARKADE_PROGRESS is not a valid boolean") }
  | some progress =>
    let dlMode := if stash then pkg.DownloadArkadeDir else pkg.DownloadTempDir
    let call : DownloadCall :=
      { tool := tool, arch := arch, operatingSystem := operatingSystem,
        version := version, dlMode := dlMode, progress := progress }
    let called : List Event := started ++ [.SignalNotify, .Download call]
    let res := w.Download call
    match res.err with
    | some err =>
      { trace := called
        err := Wrap (some err) "check with the vendor whether this tool is available for your system" }
    | none =>
      { trace := called ++
          [.Printf ("Tool written to: " ++ res.outFilePath ++ "\n\n"),
           .Printf (installHint pkg dlMode res.outFilePath res.finalName)]
        err := none }

/-- The closure `command.RunE`: the command after the run (the closure only
reads `tools` and the flags) and the outcome of the run. -/
def RunE (pkg : GetPkg) (command : Command) (w : World) (args : List String) :
    Command × Outcome :=
  match args with
  | [] =>
    let output := command.flags.output.Value
    if 0 < output.utf8ByteSize then
      if output = pkg.MarkdownStyle then
        (command, { trace := [.CreateToolsTable command.tools pkg.MarkdownStyle], err := none })
      else
        (command, { trace := [.CreateToolsTable command.tools pkg.TableStyle], err := none })
    else
      (command, { trace := [.CreateToolsTable command.tools pkg.TableStyle], err := none })
  | arg0 :: more =>
    let tool : Option Tool := if more.length + 1 = 1 then lookupLoop arg0 command.tools else none
    match tool with
    | none => (command, { trace := [], err := some (.errorf ("cannot get tool: " ++ arg0)) })
    | some tool => (command, runDownload pkg command.flags w tool)

/-- Several runs of `RunE` on the same command, one after the other, each
with its own command line (flags and arguments) and world: the command after
the last run and the outcomes in order. -/
def runs (pkg : GetPkg) (command : Command) :
    List (GivenFlags × World × List String) → Command × List Outcome
  | [] => (command, [])
  | (given, w, args) :: rest =>
    let r := RunE pkg { command with flags := registeredFlags.parse given } w args
    let rs := runs pkg r.1 rest
    (rs.1, r.2 :: rs.2)

/-- The call of `get.Download` that `runDownload` makes when it gets that
far. -/
def theCall (pkg : GetPkg) (flags : FlagSet) (w : World) (tool : Tool) (progress : Bool) :
    DownloadCall :=
  { tool := tool, arch := w.GetClientArch.1, operatingSystem := w.GetClientArch.2,
    version := if flags.version.Changed then flags.version.Value else "",
    dlMode := if flags.stash.Value then pkg.DownloadArkadeDir else pkg.DownloadTempDir,
    progress := progress }

/-! ## Sample inputs -/

/-- A three-tool catalog, not in name order. -/
def sampleTools : List Tool :=
  [ { Name := "kubectl", Owner := "kubernetes", Repo := "kubernetes",
      URLTemplate := "https://storage.googleapis.com/kubernetes-release/release/kubectl",
      BinaryTemplate := "kubectl" },
    { Name := "helm", Owner := "helm", Repo := "helm",
      URLTemplate := "https://get.helm.sh/helm.tar.gz", BinaryTemplate := "helm" },
    { Name := "faas-cli", Owner := "openfaas", Repo := "faas-cli",
      URLTemplate := "https://github.com/openfaas/faas-cli/releases/download/faas-cli",
      BinaryTemplate := "faas-cli" } ]

/-- A `get` package over the sample catalog, names compared as Go compares
strings. -/
def samplePkg : GetPkg :=
  { MakeTools := sampleTools
    Less := fun a b => decide (a.data < b.data)
    DownloadTempDir := 0
    DownloadArkadeDir := 1
    TableStyle := "table"
    MarkdownStyle := "markdown" }

/-- A world in which `ARKADE_PROGRESS` is unset and every download succeeds. -/
def sampleWorld : World :=
  { ARKADE_PROGRESS := none
    GetClientArch := ("x86_64", "linux")
    Download := fun call =>
      { outFilePath := "/tmp/" ++ call.tool.Name, finalName := call.tool.Name, err := none } }

/-- A world in which `ARKADE_PROGRESS` is `"false"` and every download fails. -/
def failingWorld : World :=
  { ARKADE_PROGRESS := some "false"
    GetClientArch := ("x86_64", "linux")
    Download := fun _ =>
      { outFilePath := "", finalName := "", err := some (.errorf "incorrect status for downloading tool: 404") } }

/-- An error that is itself built by `errors.Wrap`:
`errors.Wrap(errors.New("inner"), "outer")`. -/
def nestedError : GoError :=
  .withStack (.withMessage (.errorf "inner") "outer")

/-- A world in which `ARKADE_PROGRESS` is `"false"` and every download fails
with `nestedError`. -/
def nestedWorld : World :=
  { ARKADE_PROGRESS := some "false"
    GetClientArch := ("x86_64", "linux")
    Download := fun _ => { outFilePath := "", finalName := "", err := some nestedError } }

/-- A command over the sample catalog as listed (unsorted), default flags. -/
def sampleCommand : Command :=
  { ValidArgs := validToolOptions sampleTools, flags := registeredFlags, tools := sampleTools }

/-- The call of `get.Download` made for `helm` in the failing sample world. -/
def failingCall : DownloadCall :=
  { tool := { Name := "helm", Owner := "helm", Repo := "helm",
              URLTemplate := "https://get.helm.sh/helm.tar.gz", BinaryTemplate := "helm" },
    arch := "x86_64", operatingSystem := "linux", version := "", dlMode := 1,
    progress := false }

/-- The call of `get.Download` made for `helm` in the sample world when the
command line is `--stash=false --version=v3.2.4`. -/
def tempCall : DownloadCall :=
  { tool := { Name := "helm", Owner := "helm", Repo := "helm",
              URLTemplate := "https://get.helm.sh/helm.tar.gz", BinaryTemplate := "helm" },
    arch := "x86_64", operatingSystem := "linux", version := "v3.2.4", dlMode := 0,
    progress := true }

/-- The command line `--stash=false --version=v3.2.4`. -/
def tempGiven : GivenFlags :=
  { progress := none, output := none, stash := some false, version := some "v3.2.4" }

/-! ## The search loop -/

theorem lookupLoop_eq_none (name : String) (tools : List Tool) :
    lookupLoop name tools = none ↔ ∀ t ∈ tools, t.Name ≠ name := by
  induction tools with
  | nil => simp [lookupLoop]
  | cons t rest ih =>
    by_cases h : t.Name = name
    · simp [lookupLoop, h]
    · simp [lookupLoop, h, ih]

theorem lookupLoop_eq_some (name : String) (tools : List Tool) (tool : Tool)
    (h : lookupLoop name tools = some tool) :
    ∃ pre post, tools = pre ++ tool :: post ∧ tool.Name = name ∧ ∀ u ∈ pre, u.Name ≠ name := by
  induction tools with
  | nil => simp [lookupLoop] at h
  | cons t rest ih =>
    by_cases ht : t.Name = name
    · simp only [lookupLoop, ht, if_true, Option.some.injEq] at h
      subst h
      exact ⟨[], rest, rfl, ht, by simp⟩
    · simp only [lookupLoop, ht, if_false] at h
      obtain ⟨pre, post, hsplit, hname, hpre⟩ := ih h
      refine ⟨t :: pre, post, by simp [hsplit], hname, ?_⟩
      intro u hu
      rcases List.mem_cons.mp hu with rfl | hu
      · exact ht
      · exact hpre u hu

theorem lookupLoop_unique (name : String) (tools : List Tool) (tool : Tool)
    (h : lookupLoop name tools = some tool) (hnodup : (tools.map Tool.Name).Nodup) :
    ∀ u ∈ tools, u.Name = name → u = tool := by
  induction tools with
  | nil => simp [lookupLoop] at h
  | cons t rest ih =>
    rw [List.map_cons, List.nodup_cons] at hnodup
    by_cases ht : t.Name = name
    · simp only [lookupLoop, ht, if_true, Option.some.injEq] at h
      subst h
      intro u hu hname
      rcases List.mem_cons.mp hu with rfl | hu
      · rfl
      · exact absurd (List.mem_map.mpr ⟨u, hu, hname.trans ht.symm⟩) hnodup.1
    · simp only [lookupLoop, ht, if_false] at h
      intro u hu hname
      rcases List.mem_cons.mp hu with rfl | hu
      · exact absurd hname ht
      · exact ih h hnodup.2 u hu hname

/-! ## The calls of `get.Download` made by a run -/

theorem runDownload_unset (pkg : GetPkg) (flags : FlagSet) (w : World) (tool : Tool)
    (henv : w.ARKADE_PROGRESS = none) :
    downloads (runDownload pkg flags w tool).trace
      = [theCall pkg flags w tool flags.progress.Value] := by
  unfold runDownload
  simp only [henv]
  split <;> simp [downloads, theCall]

theorem runDownload_parsed (pkg : GetPkg) (flags : FlagSet) (w : World) (tool : Tool)
    (p : String) (b : Bool) (henv : w.ARKADE_PROGRESS = some p) (hp : ParseBool p = some b) :
    downloads (runDownload pkg flags w tool).trace = [theCall pkg flags w tool b] := by
  unfold runDownload
  simp only [henv, hp]
  split <;> simp [downloads, theCall]

theorem runDownload_invalid (pkg : GetPkg) (flags : FlagSet) (w : World) (tool : Tool)
    (p : String) (henv : w.ARKADE_PROGRESS = some p) (hp : ParseBool p = none) :
    runDownload pkg flags w tool =
      { trace := [.Printf ("Downloading: " ++ tool.Name ++ "\n"), .GetClientArch],
        err := some (.errorf "ARKADE_PROGRESS is not a valid boolean") } := by
  unfold runDownload
  simp only [henv, hp]

/-- Every call of `get.Download` in a run of `runDownload` is `theCall` for
some progress setting, and the run ends as the result of that call says. -/
theorem runDownload_calls (pkg : GetPkg) (flags : FlagSet) (w : World) (tool : Tool) :
    ∀ call ∈ downloads (runDownload pkg flags w tool).trace,
      (∃ progress, call = theCall pkg flags w tool progress) ∧
      (runDownload pkg flags w tool).err =
        Wrap (w.Download call).err
          "check with the vendor whether this tool is available for your system" := by
  intro call hcall
  cases henv : w.ARKADE_PROGRESS with
  | none =>
    rw [runDownload_unset pkg flags w tool henv, List.mem_singleton] at hcall
    subst hcall
    refine ⟨⟨_, rfl⟩, ?_⟩
    unfold runDownload
    simp only [henv]
    change (match (w.Download (theCall pkg flags w tool flags.progress.Value)).err with
      | some err => _ | none => _ : Outcome).err = _
    cases (w.Download (theCall pkg flags w tool flags.progress.Value)).err <;> rfl
  | some p =>
    cases hp : ParseBool p with
    | none =>
      rw [runDownload_invalid pkg flags w tool p henv hp] at hcall
      simp [downloads] at hcall
    | some b =>
      rw [runDownload_parsed pkg flags w tool p b henv hp, List.mem_singleton] at hcall
      subst hcall
      refine ⟨⟨_, rfl⟩, ?_⟩
      unfold runDownload
      simp only [henv, hp]
      change (match (w.Download (theCall pkg flags w tool b)).err with
        | some err => _ | none => _ : Outcome).err = _
      cases (w.Download (theCall pkg flags w tool b)).err <;> rfl

theorem RunE_one_found (pkg : GetPkg) (command : Command) (w : World) (name : String)
    (tool : Tool) (h : lookupLoop name command.tools = some tool) :
    RunE pkg command w [name] = (command, runDownload pkg command.flags w tool) := by
  simp [RunE, h]

theorem RunE_one_missing (pkg : GetPkg) (command : Command) (w : World) (name : String)
    (h : lookupLoop name command.tools = none) :
    RunE pkg command w [name] =
      (command, { trace := [], err := some (.errorf ("cannot get tool: " ++ name)) }) := by
  simp [RunE, h]

/-- Whatever the arguments, every call of `get.Download` in a run of `RunE`
is `theCall` for the found tool, and the run returns the error of that call,
wrapped, or `nil`. -/
theorem RunE_calls (pkg : GetPkg) (command : Command) (w : World) (args : List String) :
    ∀ call ∈ downloads (RunE pkg command w args).2.trace,
      (∃ tool progress, call = theCall pkg command.flags w tool progress) ∧
      (RunE pkg command w args).2.err =
        Wrap (w.Download call).err
          "check with the vendor whether this tool is available for your system" := by
  intro call hcall
  match args with
  | [] =>
    exfalso
    unfold RunE at hcall
    simp only at hcall
    split at hcall
    · split at hcall <;> simp [downloads] at hcall
    · simp [downloads] at hcall
  | [name] =>
    cases hfind : lookupLoop name command.tools with
    | none =>
      rw [RunE_one_missing pkg command w name hfind] at hcall
      simp [downloads] at hcall
    | some tool =>
      rw [RunE_one_found pkg command w name tool hfind] at hcall ⊢
      obtain ⟨⟨progress, hprog⟩, herr⟩ := runDownload_calls pkg command.flags w tool call hcall
      exact ⟨⟨tool, progress, hprog⟩, herr⟩
  | first :: second :: more =>
    simp [RunE, downloads] at hcall

/-! ## `sort.Sort` -/

theorem bubble_perm (less : String → String → Bool) (x : Tool) (l : List Tool) :
    (bubble less x l).Perm (x :: l) := by
  induction l with
  | nil => exact List.Perm.refl _
  | cons y ys ih =>
    unfold bubble
    split
    · exact ((List.Perm.cons y ih).trans (List.Perm.swap x y ys))
    · exact List.Perm.refl _

theorem foldl_bubble_perm (less : String → String → Bool) (l acc : List Tool) :
    (l.foldl (fun sortedRev t => bubble less t sortedRev) acc).Perm (l ++ acc) := by
  induction l generalizing acc with
  | nil => exact List.Perm.refl _
  | cons x xs ih =>
    rw [List.foldl_cons]
    refine (ih (bubble less x acc)).trans ?_
    refine (List.Perm.append_left xs (bubble_perm less x acc)).trans ?_
    exact (List.perm_middle).trans (List.Perm.refl _)

theorem sortSort_perm (less : String → String → Bool) (l : List Tool) :
    (sortSort less l).Perm l := by
  unfold sortSort
  refine (List.reverse_perm _).trans ?_
  simpa using foldl_bubble_perm less l []

theorem bubble_pairwise (less : String → String → Bool)
    (hasym : ∀ a b, less a b = true → less b a = false)
    (htrans : ∀ a b c, less a b = false → less b c = false → less a c = false)
    (x : Tool) (l : List Tool)
    (hl : l.Pairwise (fun a b => less a.Name b.Name = false)) :
    (bubble less x l).Pairwise (fun a b => less a.Name b.Name = false) := by
  induction l with
  | nil => simp [bubble]
  | cons y ys ih =>
    rw [List.pairwise_cons] at hl
    unfold bubble
    split
    next hxy =>
      rw [List.pairwise_cons]
      refine ⟨?_, ih hl.2⟩
      intro z hz
      rcases List.mem_cons.mp ((bubble_perm less x ys).mem_iff.mp hz) with rfl | hz
      · exact hasym _ _ hxy
      · exact hl.1 z hz
    next hxy =>
      have hxy : less x.Name y.Name = false := by simpa using hxy
      rw [List.pairwise_cons]
      refine ⟨?_, List.pairwise_cons.mpr hl⟩
      intro z hz
      rcases List.mem_cons.mp hz with rfl | hz
      · exact hxy
      · exact htrans _ _ _ hxy (hl.1 z hz)

theorem foldl_bubble_pairwise (less : String → String → Bool)
    (hasym : ∀ a b, less a b = true → less b a = false)
    (htrans : ∀ a b c, less a b = false → less b c = false → less a c = false)
    (l acc : List Tool) (hacc : acc.Pairwise (fun a b => less a.Name b.Name = false)) :
    (l.foldl (fun sortedRev t => bubble less t sortedRev) acc).Pairwise
      (fun a b => less a.Name b.Name = false) := by
  induction l generalizing acc with
  | nil => exact hacc
  | cons x xs ih =>
    rw [List.foldl_cons]
    exact ih _ (bubble_pairwise less hasym htrans x acc hacc)

theorem sortSort_sorted (less : String → String → Bool)
    (hasym : ∀ a b, less a b = true → less b a = false)
    (htrans : ∀ a b c, less a b = false → less b c = false → less a c = false)
    (l : List Tool) :
    (sortSort less l).Pairwise (fun a b => less b.Name a.Name = false) := by
  unfold sortSort
  rw [List.pairwise_reverse]
  exact foldl_bubble_pairwise less hasym htrans l [] List.Pairwise.nil

theorem sample_less_asymm (a b : String) :
    samplePkg.Less a b = true → samplePkg.Less b a = false := by
  intro h
  have h1 : a < b := by simpa [samplePkg] using h
  have h2 : ¬ b < a := lt_asymm h1
  simpa [samplePkg] using h2

theorem sample_less_trans (a b c : String) :
    samplePkg.Less a b = false → samplePkg.Less b c = false → samplePkg.Less a c = false := by
  intro h1 h2
  have h1 : ¬ a < b := by simpa [samplePkg] using h1
  have h2 : ¬ b < c := by simpa [samplePkg] using h2
  have h3 : ¬ a < c := not_lt.mpr ((not_lt.mp h2).trans (not_lt.mp h1))
  simpa [samplePkg] using h3

/-! ## `ValidArgs` and the state of the command -/

theorem foldl_append_names (tools : List Tool) (acc : List String) :
    tools.foldl (fun acc t => acc ++ [t.Name]) acc = acc ++ tools.map Tool.Name := by
  induction tools generalizing acc with
  | nil => simp
  | cons t rest ih => simp [ih]

theorem validToolOptions_eq (tools : List Tool) :
    validToolOptions tools = List.replicate tools.length "" ++ tools.map Tool.Name := by
  unfold validToolOptions
  exact foldl_append_names tools _

theorem RunE_command (pkg : GetPkg) (command : Command) (w : World) (args : List String) :
    (RunE pkg command w args).1 = command := by
  unfold RunE
  split
  · simp only
    split
    · split <;> rfl
    · rfl
  · simp only
    split <;> rfl

theorem runs_tools (pkg : GetPkg) (command : Command)
    (history : List (GivenFlags × World × List String)) :
    (runs pkg command history).1.tools = command.tools := by
  induction history generalizing command with
  | nil => rfl
  | cons run rest ih =>
    obtain ⟨given, w, args⟩ := run
    simp only [runs]
    rw [ih, RunE_command]

/-! ## Tool lookup (C1, C2, C9) -/

/-- C1: when the single argument is the name of at least one tool of the
list, there is a tool of the list, the first one in list order whose `Name`
is the argument, such that every call of `get.Download` of the run receives
it; the call is made exactly once when `ARKADE_PROGRESS` is unset or parses
as a boolean; and when names are unique in the list it is the only tool of
that name. No ordering of the list is needed. -/
theorem lookup_hands_first_match (pkg : GetPkg) (command : Command) (w : World)
    (name : String) (hknown : ∃ t ∈ command.tools, t.Name = name) :
    ∃ tool pre post,
      command.tools = pre ++ tool :: post ∧ tool.Name = name ∧ (∀ u ∈ pre, u.Name ≠ name) ∧
      (∀ call ∈ downloads (RunE pkg command w [name]).2.trace, call.tool = tool) ∧
      ((w.ARKADE_PROGRESS = none ∨ ∃ p b, w.ARKADE_PROGRESS = some p ∧ ParseBool p = some b) →
        (downloads (RunE pkg command w [name]).2.trace).map DownloadCall.tool = [tool]) ∧
      ((command.tools.map Tool.Name).Nodup → ∀ u ∈ command.tools, u.Name = name → u = tool) := by
  cases hfind : lookupLoop name command.tools with
  | none =>
    obtain ⟨t, ht, hname⟩ := hknown
    exact absurd hname ((lookupLoop_eq_none name command.tools).mp hfind t ht)
  | some tool =>
    obtain ⟨pre, post, hsplit, hname, hpre⟩ := lookupLoop_eq_some name command.tools tool hfind
    refine ⟨tool, pre, post, hsplit, hname, hpre, ?_, ?_, ?_⟩
    · intro call hcall
      rw [RunE_one_found pkg command w name tool hfind] at hcall
      obtain ⟨⟨progress, hprog⟩, -⟩ := runDownload_calls pkg command.flags w tool call hcall
      rw [hprog]
      rfl
    · intro henv
      rw [RunE_one_found pkg command w name tool hfind]
      rcases henv with henv | ⟨p, b, henv, hp⟩
      · rw [runDownload_unset pkg command.flags w tool henv]
        rfl
      · rw [runDownload_parsed pkg command.flags w tool p b henv hp]
        rfl
    · intro hnodup
      exact lookupLoop_unique name command.tools tool hfind hnodup

/-- Witness of C1 on the sample catalog: `helm` is found behind `kubectl`. -/
theorem lookup_hands_first_match_witness :
    (∃ t ∈ sampleCommand.tools, t.Name = "helm") ∧
    ∃ tool pre post,
      sampleCommand.tools = pre ++ tool :: post ∧ tool.Name = "helm" ∧
      (∀ u ∈ pre, u.Name ≠ "helm") ∧
      (∀ call ∈ downloads (RunE samplePkg sampleCommand sampleWorld ["helm"]).2.trace,
        call.tool = tool) ∧
      ((sampleWorld.ARKADE_PROGRESS = none ∨
          ∃ p b, sampleWorld.ARKADE_PROGRESS = some p ∧ ParseBool p = some b) →
        (downloads (RunE samplePkg sampleCommand sampleWorld ["helm"]).2.trace).map
          DownloadCall.tool = [tool]) ∧
      ((sampleCommand.tools.map Tool.Name).Nodup →
        ∀ u ∈ sampleCommand.tools, u.Name = "helm" → u = tool) :=
  ⟨by simp [sampleCommand, sampleTools],
   lookup_hands_first_match samplePkg sampleCommand sampleWorld "helm"
     (by simp [sampleCommand, sampleTools])⟩

/-- C2: when the single argument is the name of no tool of the list, `RunE`
returns the error `cannot get tool: <argument>` and the run makes no call at
all: `get.Download` is not invoked, the platform is not queried and no signal
handler is installed. -/
theorem unknown_tool_rejected (pkg : GetPkg) (command : Command) (w : World) (name : String)
    (hunknown : ∀ t ∈ command.tools, t.Name ≠ name) :
    (RunE pkg command w [name]).2.err = some (.errorf ("cannot get tool: " ++ name)) ∧
    ((RunE pkg command w [name]).2.err.map GoError.Error = some ("cannot get tool: " ++ name)) ∧
    (RunE pkg command w [name]).2.trace = [] ∧
    downloads (RunE pkg command w [name]).2.trace = [] ∧
    Event.GetClientArch ∉ (RunE pkg command w [name]).2.trace ∧
    Event.SignalNotify ∉ (RunE pkg command w [name]).2.trace := by
  rw [RunE_one_missing pkg command w name ((lookupLoop_eq_none name command.tools).mpr hunknown)]
  simp [downloads, GoError.Error]

/-- Witness of C2: `not-a-real-tool` on the sample catalog. -/
theorem unknown_tool_rejected_witness :
    (∀ t ∈ sampleCommand.tools, t.Name ≠ "not-a-real-tool") ∧
    (RunE samplePkg sampleCommand sampleWorld ["not-a-real-tool"]).2.err
      = some (.errorf "cannot get tool: not-a-real-tool") ∧
    downloads (RunE samplePkg sampleCommand sampleWorld ["not-a-real-tool"]).2.trace = [] :=
  have h := unknown_tool_rejected samplePkg sampleCommand sampleWorld "not-a-real-tool"
    (by simp [sampleCommand, sampleTools])
  ⟨by simp [sampleCommand, sampleTools], h.1, h.2.2.2.1⟩

/-- C9: with two or more arguments `RunE` returns the error
`cannot get tool: <first argument>` and makes no call, whatever the
arguments are, names of catalog tools included. -/
theorem several_arguments_rejected (pkg : GetPkg) (command : Command) (w : World)
    (first second : String) (more : List String) :
    (RunE pkg command w (first :: second :: more)).2.err
      = some (.errorf ("cannot get tool: " ++ first)) ∧
    ((RunE pkg command w (first :: second :: more)).2.err.map GoError.Error
      = some ("cannot get tool: " ++ first)) ∧
    (RunE pkg command w (first :: second :: more)).2.trace = [] ∧
    downloads (RunE pkg command w (first :: second :: more)).2.trace = [] := by
  simp [RunE, downloads, GoError.Error]

/-! ## What `get.Download` receives and what `RunE` returns (C3 to C6) -/

/-- C3: for a run naming a known tool, the progress setting follows
`ARKADE_PROGRESS`: unset, the one call of `get.Download` receives the value of
the `--progress` flag; set to a string that parses as a boolean, it receives
that boolean whatever the flag says; set to a string that does not parse,
`RunE` returns `ARKADE_PROGRESS is not a valid boolean` and makes no call of
`get.Download`. -/
theorem progress_follows_environment (pkg : GetPkg) (command : Command) (w : World)
    (name : String) (hknown : ∃ t ∈ command.tools, t.Name = name) :
    (w.ARKADE_PROGRESS = none →
      ∃ call, downloads (RunE pkg command w [name]).2.trace = [call] ∧
        call.progress = command.flags.progress.Value) ∧
    (∀ p b, w.ARKADE_PROGRESS = some p → ParseBool p = some b →
      ∃ call, downloads (RunE pkg command w [name]).2.trace = [call] ∧ call.progress = b) ∧
    (∀ p, w.ARKADE_PROGRESS = some p → ParseBool p = none →
      (RunE pkg command w [name]).2.err
        = some (.errorf "ARKADE_PROGRESS is not a valid boolean") ∧
      (RunE pkg command w [name]).2.err.map GoError.Error
        = some "ARKADE_PROGRESS is not a valid boolean" ∧
      downloads (RunE pkg command w [name]).2.trace = []) := by
  cases hfind : lookupLoop name command.tools with
  | none =>
    obtain ⟨t, ht, hname⟩ := hknown
    exact absurd hname ((lookupLoop_eq_none name command.tools).mp hfind t ht)
  | some tool =>
    rw [RunE_one_found pkg command w name tool hfind]
    refine ⟨?_, ?_, ?_⟩
    · intro henv
      exact ⟨_, runDownload_unset pkg command.flags w tool henv, rfl⟩
    · intro p b henv hp
      exact ⟨_, runDownload_parsed pkg command.flags w tool p b henv hp, rfl⟩
    · intro p henv hp
      rw [runDownload_invalid pkg command.flags w tool p henv hp]
      simp [downloads, GoError.Error]

/-- Witness of C3: with `ARKADE_PROGRESS=false` and the flag left at its
default `true`, the download of `helm` is called with progress `false`. -/
theorem progress_follows_environment_witness :
    (∃ t ∈ sampleCommand.tools, t.Name = "helm") ∧
    sampleCommand.flags.progress.Value = true ∧
    ∃ call, downloads (RunE samplePkg sampleCommand failingWorld ["helm"]).2.trace = [call] ∧
      call.progress = false :=
  ⟨by simp [sampleCommand, sampleTools], rfl,
   (progress_follows_environment samplePkg sampleCommand failingWorld "helm"
     (by simp [sampleCommand, sampleTools])).2.1 "false" false rfl (by decide)⟩

/-- C4 as stated fails: when `get.Download` returns
`e = errors.Wrap(errors.New("inner"), "outer")`, the cause of the error
returned by `RunE`, as `errors.Cause` computes it, is the leaf `inner`, not
`e`; nor is `e` what the method `Cause()` of the returned error gives, which
is the message layer put around `e`. -/
theorem download_error_cause_counterexample :
    failingCall ∈ downloads (RunE samplePkg sampleCommand nestedWorld ["helm"]).2.trace ∧
    (nestedWorld.Download failingCall).err = some nestedError ∧
    ∃ r, (RunE samplePkg sampleCommand nestedWorld ["helm"]).2.err = some r ∧
      Cause r = .errorf "inner" ∧ Cause r ≠ nestedError ∧ r.causer ≠ some nestedError := by
  refine ⟨by decide, rfl, _, rfl, ?_, ?_, ?_⟩ <;> decide

/-- C4, amended: for every call of `get.Download` made by a run, if the call
returns a non-nil error `e` then `RunE` returns `errors.Wrap(e, hint)`: its
message is
`check with the vendor whether this tool is available for your system: `
followed by the message of `e`; `e` itself sits unchanged under the stack
layer and the message layer (two steps of `Cause()` reach it); and the cause
that `errors.Cause` computes is the root cause of `e`, which is `e` itself
when `e` does not implement `causer`. If the call returns a nil error then
`RunE` returns nil. -/
theorem download_error_wrapped (pkg : GetPkg) (command : Command) (w : World)
    (args : List String) (call : DownloadCall)
    (hcall : call ∈ downloads (RunE pkg command w args).2.trace) :
    (∀ e, (w.Download call).err = some e →
      ∃ r, (RunE pkg command w args).2.err = some r ∧
        r.Error = "check with the vendor whether this tool is available for your system: "
          ++ e.Error ∧
        r = .withStack (.withMessage e
          "check with the vendor whether this tool is available for your system") ∧
        r.causer.bind GoError.causer = some e ∧
        Cause r = Cause e ∧
        (e.causer = none → Cause r = e)) ∧
    ((w.Download call).err = none → (RunE pkg command w args).2.err = none) := by
  obtain ⟨-, herr⟩ := RunE_calls pkg command w args call hcall
  constructor
  · intro e he
    rw [herr, he]
    refine ⟨_, rfl, ?_, rfl, rfl, rfl, ?_⟩
    · simp [GoError.Error, String.append_assoc]
    · intro hleaf
      cases e with
      | errorf msg => rfl
      | withMessage cause msg => simp [GoError.causer] at hleaf
      | withStack error => simp [GoError.causer] at hleaf
  · intro he
    rw [herr, he]
    rfl

/-- Witness of the amended C4: the 404 of the failing sample world, a leaf
error, comes back wrapped and is the cause of what `RunE` returns. -/
theorem download_error_wrapped_witness :
    failingCall ∈ downloads (RunE samplePkg sampleCommand failingWorld ["helm"]).2.trace ∧
    (RunE samplePkg sampleCommand failingWorld ["helm"]).2.err.map GoError.Error = some
      ("check with the vendor whether this tool is available for your system: "
        ++ "incorrect status for downloading tool: 404") ∧
    (RunE samplePkg sampleCommand failingWorld ["helm"]).2.err.map Cause
      = some (.errorf "incorrect status for downloading tool: 404") :=
  have hmem : failingCall ∈
      downloads (RunE samplePkg sampleCommand failingWorld ["helm"]).2.trace := by decide
  have h := (download_error_wrapped samplePkg sampleCommand failingWorld ["helm"] failingCall hmem).1
    (.errorf "incorrect status for downloading tool: 404") rfl
  ⟨hmem, by
    obtain ⟨r, hr, hmsg, -⟩ := h
    rw [hr]
    exact congrArg some hmsg, by
    obtain ⟨r, hr, -, -, -, -, hleaf⟩ := h
    rw [hr]
    exact congrArg some (hleaf rfl)⟩

/-- C5: every call of `get.Download` made by a run receives
`get.DownloadArkadeDir` when `--stash` is true and `get.DownloadTempDir` when
it is false, so never another mode; and `--stash` is true when the command
line does not set it. -/
theorem mode_follows_stash (pkg : GetPkg) (command : Command) (w : World)
    (args : List String) (call : DownloadCall)
    (hcall : call ∈ downloads (RunE pkg command w args).2.trace) :
    (command.flags.stash.Value = true → call.dlMode = pkg.DownloadArkadeDir) ∧
    (command.flags.stash.Value = false → call.dlMode = pkg.DownloadTempDir) ∧
    (call.dlMode = pkg.DownloadArkadeDir ∨ call.dlMode = pkg.DownloadTempDir) ∧
    (MakeGet pkg).flags.stash.Value = true ∧
    (∀ given : GivenFlags, given.stash = none →
      ((MakeGet pkg).flags.parse given).stash.Value = true) ∧
    (∀ (given : GivenFlags) (b : Bool), given.stash = some b →
      ((MakeGet pkg).flags.parse given).stash.Value = b) := by
  obtain ⟨⟨tool, progress, hprog⟩, -⟩ := RunE_calls pkg command w args call hcall
  subst hprog
  refine ⟨?_, ?_, ?_, rfl, ?_, ?_⟩
  · intro h
    simp [theCall, h]
  · intro h
    simp [theCall, h]
  · cases h : command.flags.stash.Value <;> simp [theCall, h]
  · intro given h
    simp [MakeGet, FlagSet.parse, Flag.parse, h, registeredFlags]
  · intro given b h
    simp [MakeGet, FlagSet.parse, Flag.parse, h]

/-- Witness of C5: `--stash=false` sends the download to the temporary
directory. -/
theorem mode_follows_stash_witness :
    tempCall ∈ downloads (RunE samplePkg
      { sampleCommand with flags := registeredFlags.parse tempGiven } sampleWorld ["helm"]).2.trace ∧
    tempCall.dlMode = samplePkg.DownloadTempDir :=
  have hmem : tempCall ∈ downloads (RunE samplePkg
      { sampleCommand with flags := registeredFlags.parse tempGiven } sampleWorld ["helm"]).2.trace := by
    decide
  ⟨hmem, (mode_follows_stash samplePkg _ sampleWorld ["helm"] tempCall hmem).2.1 rfl⟩

/-- C6: every call of `get.Download` made by a run whose flags were parsed
from the command line receives as version exactly the string given to
`--version` when the flag was given, and the empty string when it was not. -/
theorem version_passed_as_given (pkg : GetPkg) (command : Command) (given : GivenFlags)
    (w : World) (args : List String) (call : DownloadCall)
    (hcall : call ∈ downloads
      (RunE pkg { command with flags := (MakeGet pkg).flags.parse given } w args).2.trace) :
    (∀ v, given.version = some v → call.version = v) ∧
    (given.version = none → call.version = "") := by
  obtain ⟨⟨tool, progress, hprog⟩, -⟩ := RunE_calls pkg _ w args call hcall
  subst hprog
  constructor
  · intro v h
    simp [theCall, MakeGet, FlagSet.parse, Flag.parse, h]
  · intro h
    simp [theCall, MakeGet, FlagSet.parse, Flag.parse, h, registeredFlags]

/-- Witness of C6: `--version=v3.2.4` reaches `get.Download` unchanged. -/
theorem version_passed_as_given_witness :
    tempCall ∈ downloads (RunE samplePkg
      { sampleCommand with flags := (MakeGet samplePkg).flags.parse tempGiven }
      sampleWorld ["helm"]).2.trace ∧
    tempCall.version = "v3.2.4" :=
  have hmem : tempCall ∈ downloads (RunE samplePkg
      { sampleCommand with flags := (MakeGet samplePkg).flags.parse tempGiven }
      sampleWorld ["helm"]).2.trace := by
    decide
  ⟨hmem, (version_passed_as_given samplePkg sampleCommand tempGiven sampleWorld ["helm"]
    tempCall hmem).1 "v3.2.4" rfl⟩

/-! ## The catalog of the command (C7, C10) -/

/-- C7: when the name comparison of `get.Tools` is an ordering (asymmetric,
and its negation transitive), the tool sequence captured by `MakeGet` is a
permutation of `get.MakeTools()` in ascending order of `Name`; after any
number of runs of `RunE` the command still holds that sequence; a run with no
argument renders exactly that sequence and nothing else; a run with one
argument searches it: it fails with `cannot get tool` when no tool of the
sequence has the name, and any tool it downloads is the first tool of the
sequence with the name. -/
theorem catalog_sorted_and_stable (pkg : GetPkg)
    (hasym : ∀ a b, pkg.Less a b = true → pkg.Less b a = false)
    (htrans : ∀ a b c, pkg.Less a b = false → pkg.Less b c = false → pkg.Less a c = false) :
    (MakeGet pkg).tools.Perm pkg.MakeTools ∧
    (MakeGet pkg).tools.Pairwise (fun a b => pkg.Less b.Name a.Name = false) ∧
    ∀ (history : List (GivenFlags × World × List String)) (given : GivenFlags) (w : World),
      (runs pkg (MakeGet pkg) history).1.tools = (MakeGet pkg).tools ∧
      (∃ format,
        (RunE pkg { (runs pkg (MakeGet pkg) history).1 with flags := registeredFlags.parse given }
          w []).2 = { trace := [.CreateToolsTable (MakeGet pkg).tools format], err := none }) ∧
      (∀ name, (∀ t ∈ (MakeGet pkg).tools, t.Name ≠ name) →
        (RunE pkg { (runs pkg (MakeGet pkg) history).1 with flags := registeredFlags.parse given }
          w [name]).2.err = some (.errorf ("cannot get tool: " ++ name))) ∧
      (∀ name, ∀ call ∈ downloads
        (RunE pkg { (runs pkg (MakeGet pkg) history).1 with flags := registeredFlags.parse given }
          w [name]).2.trace, lookupLoop name (MakeGet pkg).tools = some call.tool) := by
  refine ⟨sortSort_perm pkg.Less pkg.MakeTools,
    sortSort_sorted pkg.Less hasym htrans pkg.MakeTools, ?_⟩
  intro history given w
  have hkeep := runs_tools pkg (MakeGet pkg) history
  refine ⟨hkeep, ?_, ?_, ?_⟩
  · unfold RunE
    simp only [hkeep]
    split
    · split
      · exact ⟨_, rfl⟩
      · exact ⟨_, rfl⟩
    · exact ⟨_, rfl⟩
  · intro name hname
    rw [RunE_one_missing]
    simp only [hkeep]
    exact (lookupLoop_eq_none name _).mpr hname
  · intro name call hcall
    cases hfind : lookupLoop name (MakeGet pkg).tools with
    | none =>
      rw [RunE_one_missing _ _ _ _ (by simpa only [hkeep] using hfind)] at hcall
      simp [downloads] at hcall
    | some tool =>
      rw [RunE_one_found _ _ _ _ tool (by simpa only [hkeep] using hfind)] at hcall
      obtain ⟨⟨progress, hprog⟩, -⟩ := runDownload_calls _ _ _ _ call hcall
      rw [hprog]
      rfl

/-- Witness of C7: the sample catalog `kubectl, helm, faas-cli` is captured as
`faas-cli, helm, kubectl`. -/
theorem catalog_sorted_and_stable_witness :
    (∀ a b, samplePkg.Less a b = true → samplePkg.Less b a = false) ∧
    (∀ a b c, samplePkg.Less a b = false → samplePkg.Less b c = false →
      samplePkg.Less a c = false) ∧
    (MakeGet samplePkg).tools.map Tool.Name = ["faas-cli", "helm", "kubectl"] ∧
    (MakeGet samplePkg).tools.Perm samplePkg.MakeTools ∧
    (MakeGet samplePkg).tools.Pairwise (fun a b => samplePkg.Less b.Name a.Name = false) :=
  have h := catalog_sorted_and_stable samplePkg sample_less_asymm sample_less_trans
  ⟨sample_less_asymm, sample_less_trans, by decide, h.1, h.2.1⟩

/-- C10: for a catalog of n tools the `ValidArgs` list built by `MakeGet` has
exactly 2n entries; the first n are empty strings; the last n are the names
of the tools in the order of the sorted catalog, that is the names of the
captured `tools` in order, a permutation of the names of `get.MakeTools()`
which is ascending whenever the name comparison of `get.Tools` is an ordering
(asymmetric, and its negation transitive); and the list is the list of the
tool names exactly when n = 0. -/
theorem validArgs_shape (pkg : GetPkg) :
    (MakeGet pkg).tools.length = pkg.MakeTools.length ∧
    (MakeGet pkg).ValidArgs.length = 2 * pkg.MakeTools.length ∧
    (MakeGet pkg).ValidArgs.take pkg.MakeTools.length
      = List.replicate pkg.MakeTools.length "" ∧
    (MakeGet pkg).ValidArgs.drop pkg.MakeTools.length
      = (MakeGet pkg).tools.map Tool.Name ∧
    ((MakeGet pkg).ValidArgs.drop pkg.MakeTools.length).Perm
      (pkg.MakeTools.map Tool.Name) ∧
    ((∀ a b, pkg.Less a b = true → pkg.Less b a = false) →
      (∀ a b c, pkg.Less a b = false → pkg.Less b c = false → pkg.Less a c = false) →
      ((MakeGet pkg).ValidArgs.drop pkg.MakeTools.length).Pairwise
        (fun a b => pkg.Less b a = false)) ∧
    ((MakeGet pkg).ValidArgs = (MakeGet pkg).tools.map Tool.Name
      ↔ pkg.MakeTools.length = 0) := by
  have hperm : (MakeGet pkg).tools.Perm pkg.MakeTools := sortSort_perm pkg.Less pkg.MakeTools
  have hlen : (MakeGet pkg).tools.length = pkg.MakeTools.length := hperm.length_eq
  have hshape : (MakeGet pkg).ValidArgs
      = List.replicate pkg.MakeTools.length "" ++ (MakeGet pkg).tools.map Tool.Name := by
    rw [← hlen]
    exact validToolOptions_eq _
  have hdrop : (MakeGet pkg).ValidArgs.drop pkg.MakeTools.length
      = (MakeGet pkg).tools.map Tool.Name := by
    rw [hshape, List.drop_left' (List.length_replicate _ _)]
  refine ⟨hlen, ?_, ?_, hdrop, ?_, ?_, ?_⟩
  · rw [hshape, List.length_append, List.length_replicate, List.length_map, hlen]
    omega
  · rw [hshape, List.take_left' (List.length_replicate _ _)]
  · rw [hdrop]
    exact hperm.map Tool.Name
  · intro hasym htrans
    rw [hdrop, List.pairwise_map]
    exact sortSort_sorted pkg.Less hasym htrans pkg.MakeTools
  · constructor
    · intro h
      have hl := congrArg List.length h
      rw [hshape, List.length_append, List.length_replicate, List.length_map] at hl
      omega
    · intro h
      rw [hshape, h]
      rfl

/-- Witness of C10: for the sample catalog `kubectl, helm, faas-cli` the list
is three empty strings followed by `faas-cli, helm, kubectl`, and those three
names are ascending. -/
theorem validArgs_shape_witness :
    (MakeGet samplePkg).ValidArgs = ["", "", "", "faas-cli", "helm", "kubectl"] ∧
    (MakeGet samplePkg).ValidArgs.length = 2 * samplePkg.MakeTools.length ∧
    (MakeGet samplePkg).ValidArgs.drop samplePkg.MakeTools.length
      = ["faas-cli", "helm", "kubectl"] ∧
    ((MakeGet samplePkg).ValidArgs.drop samplePkg.MakeTools.length).Pairwise
      (fun a b => samplePkg.Less b a = false) ∧
    (MakeGet samplePkg).ValidArgs ≠ (MakeGet samplePkg).tools.map Tool.Name :=
  have h := validArgs_shape samplePkg
  ⟨by decide, h.2.1, by decide, h.2.2.2.2.2.1 sample_less_asymm sample_less_trans,
   fun heq => absurd (h.2.2.2.2.2.2.mp heq) (by decide)⟩

end Arkade
